import Mathlib

/-!
Verification model of the Tascade-ai MCP coordination layer: the
WebSocket command dispatcher (TascadeMCPServer.handleMessage), the RPC
client (MCPClient) and the context/session manager (MCPContextManager),
shallowly embedded from the JavaScript source.

JavaScript objects are modelled as insertion-ordered association lists.
Object-literal evaluation (including spread and duplicate keys) follows
the ECMAScript rule: a repeated key keeps the position of its first
occurrence and the value of its last occurrence.  JSON.stringify drops
properties whose value is undefined, so a possibly-undefined property
value is modelled as an Option.

Timestamps are modelled as milliseconds since the epoch (a Nat).  A JS
Date stores exactly that; Date.prototype.toISOString renders it with
millisecond precision and the Date constructor parses it back, so the
pair is a bijection; the textual form is modelled by the wrapper ISOStr
(for the context manager) and by the injective rendering isoString (for
wire timestamps), whose exact ISO-8601 spelling is abstracted.
-/

/-- A parsed JSON value (the result of a successful JSON.parse). -/
inductive JVal : Type where
  | null : JVal
  | bool (b : Bool) : JVal
  | num (n : Int) : JVal
  | str (s : String) : JVal
  | obj (fields : List (String × JVal)) : JVal
  | arr (elems : List JVal) : JVal
deriving Repr

mutual

/-- Decidable equality on JSON values. -/
def JVal.decEq : (a b : JVal) → Decidable (a = b)
  | .null, .null => isTrue rfl
  | .bool a, .bool b =>
    if h : a = b then isTrue (by rw [h]) else isFalse (by intro hc; cases hc; exact h rfl)
  | .num a, .num b =>
    if h : a = b then isTrue (by rw [h]) else isFalse (by intro hc; cases hc; exact h rfl)
  | .str a, .str b =>
    if h : a = b then isTrue (by rw [h]) else isFalse (by intro hc; cases hc; exact h rfl)
  | .obj a, .obj b =>
    match JVal.decEqFields a b with
    | isTrue h => isTrue (by rw [h])
    | isFalse h => isFalse (by intro hc; cases hc; exact h rfl)
  | .arr a, .arr b =>
    match JVal.decEqList a b with
    | isTrue h => isTrue (by rw [h])
    | isFalse h => isFalse (by intro hc; cases hc; exact h rfl)
  | .null, .bool _ | .null, .num _ | .null, .str _ | .null, .obj _ | .null, .arr _
  | .bool _, .null | .bool _, .num _ | .bool _, .str _ | .bool _, .obj _ | .bool _, .arr _
  | .num _, .null | .num _, .bool _ | .num _, .str _ | .num _, .obj _ | .num _, .arr _
  | .str _, .null | .str _, .bool _ | .str _, .num _ | .str _, .obj _ | .str _, .arr _
  | .obj _, .null | .obj _, .bool _ | .obj _, .num _ | .obj _, .str _ | .obj _, .arr _
  | .arr _, .null | .arr _, .bool _ | .arr _, .num _ | .arr _, .str _ | .arr _, .obj _ =>
    isFalse (by intro hc; cases hc)

/-- Decidable equality on JSON object field lists. -/
def JVal.decEqFields : (a b : List (String × JVal)) → Decidable (a = b)
  | [], [] => isTrue rfl
  | (k₁, v₁) :: t₁, (k₂, v₂) :: t₂ =>
    if hk : k₁ = k₂ then
      match JVal.decEq v₁ v₂ with
      | isTrue hv =>
        match JVal.decEqFields t₁ t₂ with
        | isTrue ht => isTrue (by rw [hk, hv, ht])
        | isFalse ht => isFalse (by intro hc; cases hc; exact ht rfl)
      | isFalse hv => isFalse (by intro hc; cases hc; exact hv rfl)
    else isFalse (by intro hc; cases hc; exact hk rfl)
  | [], _ :: _ => isFalse (by intro hc; cases hc)
  | _ :: _, [] => isFalse (by intro hc; cases hc)

/-- Decidable equality on JSON array element lists. -/
def JVal.decEqList : (a b : List JVal) → Decidable (a = b)
  | [], [] => isTrue rfl
  | v₁ :: t₁, v₂ :: t₂ =>
    match JVal.decEq v₁ v₂ with
    | isTrue hv =>
      match JVal.decEqList t₁ t₂ with
      | isTrue ht => isTrue (by rw [hv, ht])
      | isFalse ht => isFalse (by intro hc; cases hc; exact ht rfl)
    | isFalse hv => isFalse (by intro hc; cases hc; exact hv rfl)
  | [], _ :: _ => isFalse (by intro hc; cases hc)
  | _ :: _, [] => isFalse (by intro hc; cases hc)

end

instance : DecidableEq JVal := JVal.decEq

/-! ## Insertion-ordered maps (JS Map and JS object semantics)

A JS Map and a JS object both iterate in key-insertion order and update
a present key in place.  Both are modelled as association lists with the
operations below. -/

/-- Lookup of a key (JS Map.get, or property access on an object). -/
def alookup {α : Type} (l : List (String × α)) (k : String) : Option α :=
  (l.find? (fun p => p.1 == k)).map Prod.snd

/-- Key update (JS Map.set, or assigning/spreading a property into an
object literal): a present key keeps its position and takes the new
value, an absent key is appended.  (A JS Map or object never holds a
duplicate key, so replacing the first occurrence is exact.) -/
def aset {α : Type} : List (String × α) → String → α → List (String × α)
  | [], k, v => [(k, v)]
  | p :: t, k, v => if p.1 == k then (k, v) :: t else p :: aset t k v

/-- Key removal (JS Map.delete). -/
def adel {α : Type} (l : List (String × α)) (k : String) : List (String × α) :=
  l.filter (fun p => !(p.1 == k))

/-- Object-literal evaluation: the entries (in source order, spreads
flattened) are folded left with `aset`, so a repeated key keeps its
first position and last value. -/
def olit {α : Type} (entries : List (String × α)) : List (String × α) :=
  entries.foldl (fun acc p => aset acc p.1 p.2) []

/-- Spread merge, the literal with a spread of `a` then a spread of `b`. -/
def objMerge (a b : List (String × JVal)) : List (String × JVal) :=
  olit (a ++ b)

/-- Truthiness of a possibly-undefined JS value (undefined, null, false,
0 and the empty string are falsy). -/
def truthy : Option JVal → Bool
  | none => false
  | some .null => false
  | some (.bool b) => b
  | some (.num n) => !(n == 0)
  | some (.str s) => !(s == "")
  | some (.obj _) => true
  | some (.arr _) => true

/-- Property access `v.k` on a parsed value: undefined on non-objects
(the null case, which throws in JS, is handled at each use site). -/
def jget (v : JVal) (k : String) : Option JVal :=
  match v with
  | .obj fs => alookup fs k
  | _ => none

/-- String conversion of a value, as used by JS template literals and
the Error constructor. -/
def jsToString : JVal → String
  | .null => "null"
  | .bool b => cond b "true" "false"
  | .num n => toString n
  | .str s => s
  | .obj _ => "[object Object]"
  | .arr es => String.intercalate "," (es.attach.map (fun e => jsToString e.1))
termination_by v => sizeOf v
decreasing_by
  have := List.sizeOf_lt_of_mem e.2
  simp only [JVal.arr.sizeOf_spec]
  omega

/-- JSON serialization of a value (string escaping abstracted). -/
def jsonStringify : JVal → String
  | .null => "null"
  | .bool b => cond b "true" "false"
  | .num n => toString n
  | .str s => "\"" ++ s ++ "\""
  | .obj fs =>
    "\x7b" ++
      String.intercalate ","
        (fs.attach.map (fun p => "\"" ++ p.1.1 ++ "\":" ++ jsonStringify p.1.2)) ++
      "\x7d"
  | .arr es => "[" ++ String.intercalate "," (es.attach.map (fun e => jsonStringify e.1)) ++ "]"
termination_by v => sizeOf v
decreasing_by
  · have h1 := List.sizeOf_lt_of_mem p.2
    have h2 : sizeOf p.1.2 ≤ sizeOf p.1 := by
      obtain ⟨a, b⟩ := p.1
      simp
    simp only [JVal.obj.sizeOf_spec]
    omega
  · have := List.sizeOf_lt_of_mem e.2
    simp only [JVal.arr.sizeOf_spec]
    omega

/-- Substring test, modelling String.prototype.includes. -/
def strContains (s pat : String) : Bool :=
  (s.splitOn pat).length > 1 || pat == ""

/-- Rendering of a millisecond timestamp as its ISO-8601 string
(Date.prototype.toISOString).  The rendering is injective; its exact
spelling is abstracted as the decimal millisecond count. -/
def isoString (t : Nat) : String :=
  toString t

/-! ## Server: TascadeMCPServer (src/unnamed/part_003)

The dispatcher is embedded over a registry of tools.  A handler is a
pure function from its params value to either a result object (the
object literal the JS handler returns) or a thrown error message; the
await and the try/catch around the invocation map to the Except. -/

/-- A registered tool: the handler function (the schema plays no role in
dispatch and is omitted). -/
structure ToolEntry : Type where
  handler : JVal → Except String (List (String × JVal))

/-- An inbound wire frame: either text that JSON.parse rejects (with the
parse-error message) or the parsed value. -/
inductive Inbound : Type where
  | malformed (emsg : String) : Inbound
  | parsed (data : JVal) : Inbound

namespace TascadeMCPServer

/-- Tool registration (this.tools.set): last registration wins. -/
def registerTool (tools : List (String × ToolEntry)) (name : String) (h : ToolEntry) :
    List (String × ToolEntry) :=
  aset tools name h

/-- Serialization of a response object literal: object-literal
evaluation followed by JSON.stringify, which drops undefined values. -/
def mkResponse (entries : List (String × Option JVal)) : List (String × JVal) :=
  (olit entries).filterMap (fun p => p.2.map (fun v => (p.1, v)))

/-- Dispatch of one inbound message (TascadeMCPServer.handleMessage),
returning the single response frame written back to the client.  The
outer try/catch turns both a JSON.parse failure and the TypeError from
reading .command off a null payload into a parse-error response with no
id; the engine wording of the null TypeError is abstracted. -/
def handleMessage (tools : List (String × ToolEntry)) (inb : Inbound) (now : Nat) :
    List (String × JVal) :=
  match inb with
  | .malformed emsg =>
    mkResponse [("error", some (.str ("Error parsing message: " ++ emsg))),
                ("timestamp", some (.str (isoString now)))]
  | .parsed .null =>
    mkResponse [("error", some (.str "Error parsing message: Cannot read properties of null")),
                ("timestamp", some (.str (isoString now)))]
  | .parsed data =>
    let cmdv := jget data "command"
    if !(truthy cmdv) then
      mkResponse [("id", jget data "id"),
                  ("error", some (.str "Missing command")),
                  ("timestamp", some (.str (isoString now)))]
    else
      -- this.tools.has(data.command): the Map keys are strings, so a
      -- non-string command value never hits a registered tool.
      match cmdv with
      | some (.str c) =>
        match alookup tools c with
        | none =>
          mkResponse [("id", jget data "id"),
                      ("error", some (.obj [("code", .str "unknown_command"),
                        ("message", .str ("Unknown command: " ++ c))])),
                      ("timestamp", some (.str (isoString now)))]
        | some tool =>
          let params := if truthy (jget data "params") then (jget data "params").getD .null
                        else .obj []
          match tool.handler params with
          | .ok result =>
            mkResponse (("id", jget data "id") ::
              result.map (fun p => (p.1, some p.2)) ++
              [("timestamp", some (.str (isoString now)))])
          | .error emsg =>
            mkResponse [("id", jget data "id"),
                        ("error", some (.str ("Error executing command: " ++ emsg))),
                        ("timestamp", some (.str (isoString now)))]
      | some other =>
        mkResponse [("id", jget data "id"),
                    ("error", some (.obj [("code", .str "unknown_command"),
                      ("message", .str ("Unknown command: " ++ jsToString other))])),
                    ("timestamp", some (.str (isoString now)))]
      | none =>
        -- unreachable: truthy none is false
        mkResponse []

end TascadeMCPServer

/-! ## Client: MCPClient (src/src/mcp/client.js)

The client state machine is embedded as a record of the instance fields
that the claims touch, together with a step function per event handler.
Promise continuations, timers and the event emitter are modelled by an
effect trace: resolving or rejecting a pending request, clearing its
timeout, emitting an event, closing the socket and scheduling a
reconnect timer each become one trace element. -/

/-- Client-side bookkeeping for one outstanding request (the value
stored in this.pendingCommands; the resolve/reject continuations and
the timer handle live in the effect trace). -/
structure PendingCmd : Type where
  command : String
  params : JVal
  sentAt : Nat
deriving Repr, DecidableEq

/-- One observable action of the client. -/
inductive CEffect : Type where
  | clearTimeout (id : String) : CEffect
  | resolve (id : String) (value : JVal) : CEffect
  | reject (id : String) (emsg : String) : CEffect
  | emitEv (name : String) : CEffect
  | closeWs : CEffect
  | scheduleReconnect (attempt : Nat) (delay : Nat) : CEffect
deriving Repr, DecidableEq

/-- The MCPClient instance fields used by the embedded handlers.
hasWs models `this.ws` being non-null and wsOpen models
`this.ws.readyState === WebSocket.OPEN`.  The tool cache and the
alternate-port probe list are not needed by any claim and are omitted;
in availableResources a stored JVal.null is the placeholder that
listResources writes before a resource is fetched. -/
structure ClientState : Type where
  timeout : Nat := 30000
  maxReconnectAttempts : Nat := 3
  reconnectDelay : Nat := 2000
  connected : Bool := false
  hasWs : Bool := false
  wsOpen : Bool := false
  reconnectAttempts : Nat := 0
  intentionalClose : Bool := false
  pendingCommands : List (String × PendingCmd) := []
  contextId : Option String := none
  sequenceId : Nat := 0
  availableResources : List (String × JVal) := []
deriving Repr, DecidableEq

namespace MCPClient

/-- Extraction of the rejection message from a response carrying a
truthy error value: an object uses its truthy message property (or its
JSON rendering when the message is falsy); a primitive is converted by
the Error constructor.  In JS `typeof null` is also "object", but a null
error is falsy and never reaches this point. -/
def errMsgOf (e : JVal) : String :=
  match e with
  | .obj fs =>
    let m := alookup fs "message"
    if truthy m then jsToString (m.getD .null) else jsonStringify e
  | .arr es => jsonStringify (.arr es)
  | other => jsToString other

/-- Settling of a matched pending request: reject when the response has
a truthy error value, resolve with the whole response object otherwise. -/
def settleEffect (pid : String) (resp : JVal) : CEffect :=
  if truthy (jget resp "error") then .reject pid (errMsgOf ((jget resp "error").getD .null))
  else .resolve pid resp

/-- By-name fallback of _handleMessage: when a truthy command name is
present, the first pending request in insertion order whose stored
command name strictly equals it is settled; otherwise the payload is
surfaced as a message event.  Strict equality with the stored string
means only a nonempty string command can match. -/
def nameFallback (st : ClientState) (resp : JVal) : ClientState × List CEffect :=
  match jget resp "command" with
  | some (.str c) =>
    if c ≠ "" then
      match st.pendingCommands.find? (fun p => p.2.command == c) with
      | some hit =>
        ({ st with pendingCommands := adel st.pendingCommands hit.1 },
         [.clearTimeout hit.1, settleEffect hit.1 resp])
      | none => (st, [.emitEv "message"])
    else (st, [.emitEv "message"])
  | some _ => (st, [.emitEv "message"])
  | none => (st, [.emitEv "message"])

/-- Matching by id: a truthy string id that is a key of the pending map
settles that request; any other id (absent, falsy, non-string, or
unknown) falls through to the by-name fallback. -/
def idBranch (st : ClientState) (resp : JVal) : ClientState × List CEffect :=
  match jget resp "id" with
  | some (.str s) =>
    if s ≠ "" then
      match alookup st.pendingCommands s with
      | some _ =>
        ({ st with pendingCommands := adel st.pendingCommands s },
         [.clearTimeout s, settleEffect s resp])
      | none => nameFallback st resp
    else nameFallback st resp
  | _ => nameFallback st resp

/-- The MCPClient._handleMessage event handler.  freshCtx stands for the
uuid generated when the welcome message initializes the context id.  A
parse failure, a null payload (reading .message off null throws) and a
truthy non-string message value (calling .includes on it throws) all end
in the catch block, which emits an error event. -/
def handleMessage (st : ClientState) (inb : Inbound) (freshCtx : String) :
    ClientState × List CEffect :=
  match inb with
  | .malformed _ => (st, [.emitEv "error"])
  | .parsed .null => (st, [.emitEv "error"])
  | .parsed resp =>
    match jget resp "message" with
    | some (.str s) =>
      if s ≠ "" then
        if strContains s "Welcome" then
          ({ st with contextId := some (st.contextId.getD freshCtx) }, [.emitEv "welcome"])
        else idBranch st resp
      else idBranch st resp
    | some v => if truthy (some v) then (st, [.emitEv "error"]) else idBranch st resp
    | none => idBranch st resp

/-- The MCPClient.disconnect method: a no-op unless connected with a
socket; otherwise it marks the close intentional, clears and rejects
every pending request in insertion order, empties the pending map and
closes an open socket. -/
def disconnect (st : ClientState) : ClientState × List CEffect :=
  if st.connected && st.hasWs then
    ({ st with intentionalClose := true, pendingCommands := [] },
     (st.pendingCommands.flatMap (fun p => [.clearTimeout p.1, .reject p.1 "Connection closed"]))
       ++ (if st.wsOpen then [.closeWs] else []))
  else (st, [])

/-- The MCPClient._attemptReconnect method: at the attempt cap it emits
the terminal reconnect_failed event; otherwise it increments the
counter and schedules a reconnect timer after reconnectDelay times the
new attempt number (linear backoff).  The alternate-port probe that runs
from the second attempt onward only retargets the URL and is not
modelled. -/
def attemptReconnect (st : ClientState) : ClientState × List CEffect :=
  if st.reconnectAttempts ≥ st.maxReconnectAttempts then (st, [.emitEv "reconnect_failed"])
  else
    let a := st.reconnectAttempts + 1
    ({ st with reconnectAttempts := a },
     [.emitEv "reconnecting", .scheduleReconnect a (st.reconnectDelay * a)])

/-- The MCPClient._handleClose event handler: clears the connected flag,
emits disconnected, and either consumes the intentional flag (no
reconnect) or enters _attemptReconnect. -/
def handleClose (st : ClientState) : ClientState × List CEffect :=
  let stc := { st with connected := false }
  if st.intentionalClose then
    ({ stc with intentionalClose := false }, [.emitEv "disconnected"])
  else
    ((attemptReconnect stc).1, .emitEv "disconnected" :: (attemptReconnect stc).2)

/-- The MCPClient._handleError event handler: emits the error event and,
unless the close was intentional, enters _attemptReconnect. -/
def handleError (st : ClientState) : ClientState × List CEffect :=
  if st.intentionalClose then (st, [.emitEv "error"])
  else ((attemptReconnect st).1, .emitEv "error" :: (attemptReconnect st).2)

/-- Trace of the reconnection loop when every connect attempt fails:
each scheduled timer fires with the client still disconnected, connect
rejects, and the catch re-enters _attemptReconnect, until the attempt
cap emits reconnect_failed. -/
def reconnectAllFail (st : ClientState) : List CEffect :=
  if st.reconnectAttempts ≥ st.maxReconnectAttempts then (attemptReconnect st).2
  else (attemptReconnect st).2 ++ reconnectAllFail (attemptReconnect st).1
termination_by st.maxReconnectAttempts - st.reconnectAttempts
decreasing_by
  simp only [attemptReconnect, if_neg (by omega : ¬ st.reconnectAttempts ≥ st.maxReconnectAttempts)]
  omega

/-- Fetch path of getResource: sends the get-resource command; on a
response with truthy success and truthy resource the resource is cached
and returned, otherwise the method throws the response error (or the
fallback message); a rejected sendCommand is rethrown. -/
def getResourceFetch (st : ClientState) (uri : String) (reply : Except String JVal) :
    ClientState × Except String JVal × List (String × JVal) :=
  let sent := [("get-resource", JVal.obj [("uri", .str uri)])]
  match reply with
  | .error emsg => (st, .error emsg, sent)
  | .ok resp =>
    if truthy (jget resp "success") && truthy (jget resp "resource") then
      let r := (jget resp "resource").getD .null
      ({ st with availableResources := aset st.availableResources uri r }, .ok r, sent)
    else
      (st, .error (if truthy (jget resp "error") then jsToString ((jget resp "error").getD .null)
                   else "Failed to get resource"), sent)

/-- The MCPClient.getResource method as one step.  The reply argument is
the outcome sendCommand would deliver for a get-resource command (the
whole response object on resolution, the rejection message otherwise);
the returned trace lists the commands actually sent.  A cache hit (a
stored value other than the null placeholder) returns without sending. -/
def getResource (st : ClientState) (uri : String) (reply : Except String JVal) :
    ClientState × Except String JVal × List (String × JVal) :=
  match alookup st.availableResources uri with
  | some v =>
    if v ≠ JVal.null then (st, .ok v, [])
    else getResourceFetch st uri reply
  | none => getResourceFetch st uri reply

end MCPClient

/-! ## Context manager: MCPContextManager (src/src/mcp/context_manager.js) -/

/-- Textual ISO-8601 form of a millisecond timestamp.  A JS Date holds
an integral millisecond count, toISOString renders it with millisecond
precision, and the Date constructor parses that rendering back, so the
two conversions below form a bijection. -/
structure ISOStr : Type where
  ms : Nat
deriving Repr, DecidableEq

/-- Date.prototype.toISOString on a Date holding t milliseconds. -/
def toISO (t : Nat) : ISOStr := ⟨t⟩

/-- The Date constructor applied to an ISO string. -/
def ofISO (s : ISOStr) : Nat := s.ms

/-- One sequential-thinking step of a session. -/
structure CtxStep : Type where
  name : String
  timestamp : Nat
  data : JVal
  index : Nat
deriving Repr, DecidableEq

/-- One history entry: a pre-update snapshot of the session data. -/
structure CtxHistEntry : Type where
  timestamp : Nat
  data : List (String × JVal)
deriving Repr, DecidableEq

/-- A live session/context object. -/
structure Context : Type where
  id : String
  created : Nat
  updated : Nat
  data : List (String × JVal)
  history : List CtxHistEntry
  steps : List CtxStep
deriving Repr, DecidableEq

/-- Tombstone for a deleted context. -/
structure CtxTombstone : Type where
  id : String
  deleted : Nat
  data : Context
deriving Repr, DecidableEq

/-- The MCPContextManager instance state (debug flag omitted). -/
structure CtxManager : Type where
  contexts : List (String × Context) := []
  activeContext : Option String := none
  contextHistory : List CtxTombstone := []
  maxHistoryLength : Nat := 10
deriving Repr, DecidableEq

/-- An exported step: every field of the step with the timestamp
replaced by its ISO rendering (spread with timestamp override). -/
structure SStep : Type where
  name : String
  timestamp : ISOStr
  data : JVal
  index : Nat
deriving Repr, DecidableEq

/-- An exported history entry. -/
structure SHistEntry : Type where
  timestamp : ISOStr
  data : List (String × JVal)
deriving Repr, DecidableEq

/-- The serialized form of a session produced by exportContext. -/
structure SContext : Type where
  id : String
  created : ISOStr
  updated : ISOStr
  data : List (String × JVal)
  steps : List SStep
  history : List SHistEntry
deriving Repr, DecidableEq

namespace MCPContextManager

/-- Resolution of a context id argument: a falsy (empty) id falls back
to the active context; a still-falsy result means no context. -/
def resolveCid (m : CtxManager) (cid : String) : Option String :=
  if cid ≠ "" then some cid
  else match m.activeContext with
    | some a => if a ≠ "" then some a else none
    | none => none

/-- The MCPContextManager.getContext method. -/
def getContext (m : CtxManager) (cid : String) : Option Context :=
  (resolveCid m cid).bind (alookup m.contexts)

/-- Synthesized context id for a falsy id argument, modelling
`ctx_` + Date.now() + a random suffix (the suffix is abstracted). -/
def synthCtxId (now : Nat) : String :=
  "ctx_" ++ toString now

/-- Core of updateContext on a context that exists: push a copy of the
current data onto the history, evict the oldest entry past the bound,
then merge or replace the data and bump the updated timestamp. -/
def updateExisting (maxH : Nat) (ctx : Context) (data : List (String × JVal))
    (merge : Bool) (now : Nat) : Context :=
  let hist := ctx.history ++ [⟨now, olit ctx.data⟩]
  let hist := if hist.length > maxH then hist.tail else hist
  { ctx with
    history := hist,
    data := if merge then objMerge ctx.data data else olit data,
    updated := now }

/-- The MCPContextManager.createContext method.  When the id already
exists it redirects to updateContext with merge semantics, which finds
the context and applies updateExisting; otherwise a fresh context is
stored and made active.  Returns the stored id. -/
def createContext (m : CtxManager) (cid : String) (initialData : List (String × JVal))
    (now : Nat) : CtxManager × String :=
  let cid := if cid = "" then synthCtxId now else cid
  match alookup m.contexts cid with
  | some ctx =>
    ({ m with contexts := aset m.contexts cid (updateExisting m.maxHistoryLength ctx initialData true now) }, cid)
  | none =>
    ({ m with
        contexts := aset m.contexts cid ⟨cid, now, now, olit initialData, [], []⟩,
        activeContext := some cid }, cid)

/-- The MCPContextManager.updateContext method: updates the resolved
context in place, or falls back to createContext when it is missing. -/
def updateContext (m : CtxManager) (cid : String) (data : List (String × JVal))
    (merge : Bool) (now : Nat) : CtxManager × String :=
  match resolveCid m cid with
  | some rid =>
    match alookup m.contexts rid with
    | some ctx =>
      ({ m with contexts := aset m.contexts rid (updateExisting m.maxHistoryLength ctx data merge now) }, cid)
    | none => createContext m cid data now
  | none => createContext m cid data now

/-- The MCPContextManager.addStep method: appends an indexed step to the
resolved context. -/
def addStep (m : CtxManager) (cid : String) (name : String) (sdata : JVal) (now : Nat) :
    CtxManager × Option CtxStep :=
  match resolveCid m cid with
  | some rid =>
    match alookup m.contexts rid with
    | some ctx =>
      let step : CtxStep := ⟨name, now, sdata, ctx.steps.length⟩
      ({ m with contexts := aset m.contexts rid { ctx with steps := ctx.steps ++ [step], updated := now } }, some step)
    | none => (m, none)
  | none => (m, none)

/-- The MCPContextManager.exportContext method: renders the timestamps
of the session and of each step and history entry to ISO form. -/
def exportContext (m : CtxManager) (cid : String) : Option SContext :=
  (getContext m cid).map fun ctx =>
    ⟨ctx.id, toISO ctx.created, toISO ctx.updated, ctx.data,
     ctx.steps.map (fun s => ⟨s.name, toISO s.timestamp, s.data, s.index⟩),
     ctx.history.map (fun h => ⟨toISO h.timestamp, h.data⟩)⟩

/-- The MCPContextManager.importContext method: rejects a falsy id,
creates (or merges into) the context, then overwrites its created and
updated timestamps, steps and history from the serialized form.  The
created and updated guards in the source always pass because an ISO
string is truthy. -/
def importContext (m : CtxManager) (s : SContext) (now : Nat) : CtxManager × Option String :=
  if s.id = "" then (m, none)
  else
    let m₁ := (createContext m s.id s.data now).1
    match alookup m₁.contexts s.id with
    | some ctx =>
      let ctx₂ := { ctx with
        created := ofISO s.created,
        updated := ofISO s.updated,
        steps := s.steps.map (fun st => ⟨st.name, ofISO st.timestamp, st.data, st.index⟩),
        history := s.history.map (fun h => ⟨ofISO h.timestamp, h.data⟩) }
      ({ m₁ with contexts := aset m₁.contexts s.id ctx₂ }, some s.id)
    | none => (m₁, some s.id)

/-- The MCPContextManager.deleteContext method: records a tombstone in
the bounded global history, removes the context and clears the active
pointer when it referenced the deleted session. -/
def deleteContext (m : CtxManager) (cid : String) (now : Nat) : CtxManager × Bool :=
  match alookup m.contexts cid with
  | none => (m, false)
  | some ctx =>
    let hist := m.contextHistory ++ [⟨cid, now, ctx⟩]
    let hist := if hist.length > m.maxHistoryLength then hist.tail else hist
    ({ m with
        contexts := adel m.contexts cid,
        contextHistory := hist,
        activeContext := if m.activeContext = some cid then none else m.activeContext },
     true)

end MCPContextManager

/-! ## Fixtures

Concrete registries, payloads and client/manager states used by the
counterexamples and the witnesses below, plus the iteration harness for
repeated updateContext calls. -/

/-- Iterated updateContext calls against one session: each entry carries the data, the merge flag and the clock value of one call, applied in order. -/
def applyUpdates (m : CtxManager) (cid : String)
    (ops : List ((List (String × JVal)) × Bool × Nat)) : CtxManager :=
  ops.foldl (fun acc op => (MCPContextManager.updateContext acc cid op.1 op.2.1 op.2.2).1) m

/-- Registry holding one tool whose handler returns an object with its own timestamp field. -/
def toolsC1 : List (String × ToolEntry) :=
  [("echo", ⟨fun _ => .ok [("timestamp", .num 7)]⟩)]

/-- Request frame invoking that tool. -/
def dataC1 : JVal :=
  .obj [("id", .str "r1"), ("command", .str "echo"), ("params", .obj [("x", .num 1)])]

/-- Registry holding an echo-style tool. -/
def toolsW : List (String × ToolEntry) :=
  [("echo", ⟨fun p => .ok [("success", .bool true), ("value", (jget p "value").getD .null)]⟩)]

/-- Request frame invoking the echo-style tool. -/
def dataW : JVal :=
  .obj [("id", .str "w1"), ("command", .str "echo"), ("params", .obj [("value", .num 42)])]

/-- Connected client with one pending request whose stored command name is foo. -/
def stC2 : ClientState :=
  { connected := true, pendingCommands := [("idA", ⟨"foo", .obj [], 0⟩)] }

/-- Response payload that carries an id matching no pending request, together with a command name that does match one. -/
def respC2 : JVal :=
  .obj [("id", .str "idB"), ("command", .str "foo"), ("ok", .bool true)]

/-- Connected client with one pending request named bar. -/
def stC2W : ClientState :=
  { connected := true, pendingCommands := [("idC", ⟨"bar", .obj [], 1⟩)] }

/-- Connected client with one pending request, used to observe the close handler. -/
def stC3 : ClientState :=
  { connected := true, hasWs := true, wsOpen := true,
    pendingCommands := [("req1", ⟨"foo", .obj [], 0⟩)] }

/-- Connected client with two pending requests. -/
def stC5W : ClientState :=
  { connected := true, hasWs := true, wsOpen := true,
    pendingCommands := [("p1", ⟨"alpha", .obj [], 0⟩), ("p2", ⟨"beta", .obj [], 1⟩)] }

/-- Connected client with one pending request awaiting an unknown command. -/
def stC6W : ClientState :=
  { connected := true, pendingCommands := [("w6", ⟨"does-not-exist", .obj [], 0⟩)] }

/-- Connected client with an empty resource cache. -/
def stC10W : ClientState := { connected := true }

/-- Context manager holding one session with one step and one history entry. -/
def mgrW : CtxManager :=
  { contexts := [("c1", ⟨"c1", 5, 8, [("k", .num 1)], [⟨6, [("k", .num 0)]⟩],
      [⟨"s1", 7, .null, 0⟩]⟩)],
    activeContext := some "c1" }

/-- Two updateContext calls: a merge followed by a replace. -/
def opsW : List ((List (String × JVal)) × Bool × Nat) :=
  [([("a", .num 1)], true, 21), ([("a", .num 2)], false, 22)]

/-! ## Map lemmas -/

/-- Keys of an association list are pairwise distinct (always true of a
list that models a JS Map or object). -/
def keysNodup {α : Type} (l : List (String × α)) : Prop :=
  (l.map Prod.fst).Nodup

instance {α : Type} (l : List (String × α)) : Decidable (keysNodup l) :=
  List.nodupDecidable (l.map Prod.fst)

/-- Lookup in the empty map. -/
theorem alookup_nil {α : Type} (k : String) : alookup ([] : List (String × α)) k = none := rfl

/-- Lookup steps through a cons cell. -/
theorem alookup_cons {α : Type} (p : String × α) (t : List (String × α)) (k : String) :
    alookup (p :: t) k = if p.1 = k then some p.2 else alookup t k := by
  by_cases h : p.1 = k <;> simp [alookup, List.find?_cons, h]

/-- Setting into a map whose head has the key. -/
theorem aset_cons_pos {α : Type} {p : String × α} {k : String} (t : List (String × α))
    (v : α) (h : p.1 = k) : aset (p :: t) k v = (k, v) :: t := by
  simp [aset, h]

/-- Setting into a map whose head has a different key. -/
theorem aset_cons_neg {α : Type} {p : String × α} {k : String} (t : List (String × α))
    (v : α) (h : p.1 ≠ k) : aset (p :: t) k v = p :: aset t k v := by
  simp [aset, h]

/-- Distinctness of keys, unfolded one cons cell. -/
theorem keysNodup_cons {α : Type} {p : String × α} {t : List (String × α)} :
    keysNodup (p :: t) ↔ (∀ q ∈ t, q.1 ≠ p.1) ∧ keysNodup t := by
  simp only [keysNodup, List.map_cons, List.nodup_cons, List.mem_map]
  constructor
  · rintro ⟨hni, hnd⟩
    refine ⟨fun q hq hc => hni ⟨q, hq, hc⟩, hnd⟩
  · rintro ⟨hni, hnd⟩
    refine ⟨fun hex => ?_, hnd⟩
    obtain ⟨q, hq, hc⟩ := hex
    exact hni q hq hc

/-- Setting a key absent from the map appends the binding. -/
theorem aset_fresh {α : Type} {l : List (String × α)} {k : String} (v : α)
    (h : ∀ p ∈ l, p.1 ≠ k) : aset l k v = l ++ [(k, v)] := by
  induction l with
  | nil => rfl
  | cons p t ih =>
    rw [aset_cons_neg t v (h p (by simp)), ih (fun q hq => h q (by simp [hq]))]
    simp

/-- Lookup after setting the same key. -/
theorem alookup_aset_self {α : Type} (l : List (String × α)) (k : String) (v : α) :
    alookup (aset l k v) k = some v := by
  induction l with
  | nil => simp [aset, alookup_cons]
  | cons p t ih =>
    by_cases h : p.1 = k
    · rw [aset_cons_pos t v h, alookup_cons]
      simp
    · rw [aset_cons_neg t v h, alookup_cons, if_neg h]
      exact ih

/-- Lookup after setting a different key. -/
theorem alookup_aset_ne {α : Type} (l : List (String × α)) {k k' : String} (v : α)
    (h : k ≠ k') : alookup (aset l k v) k' = alookup l k' := by
  induction l with
  | nil => simp [aset, alookup_cons, alookup_nil, h]
  | cons p t ih =>
    by_cases hp : p.1 = k
    · rw [aset_cons_pos t v hp, alookup_cons, alookup_cons, if_neg h,
        if_neg (show p.1 ≠ k' by rw [hp]; exact h)]
    · rw [aset_cons_neg t v hp, alookup_cons, alookup_cons, ih]

/-- Any key of the updated map is the set key or an original key. -/
theorem mem_keys_aset {α : Type} {l : List (String × α)} {k a : String} {v : α}
    (h : a ∈ (aset l k v).map Prod.fst) : a ∈ l.map Prod.fst ∨ a = k := by
  induction l with
  | nil =>
    right
    simpa [aset] using h
  | cons p t ih =>
    by_cases hp : p.1 = k
    · rw [aset_cons_pos t v hp] at h
      rcases List.mem_map.mp h with ⟨q, hq, hqa⟩
      rcases List.mem_cons.mp hq with hq | hq
      · right; rw [← hqa, hq]
      · left
        exact List.mem_map.mpr ⟨q, List.mem_cons.mpr (Or.inr hq), hqa⟩
    · rw [aset_cons_neg t v hp] at h
      rcases List.mem_map.mp h with ⟨q, hq, hqa⟩
      rcases List.mem_cons.mp hq with hq | hq
      · left
        exact List.mem_map.mpr ⟨q, List.mem_cons.mpr (Or.inl hq), hqa⟩
      · rcases ih (List.mem_map.mpr ⟨q, hq, hqa⟩) with h2 | h2
        · left
          rcases List.mem_map.mp h2 with ⟨r, hr, hra⟩
          exact List.mem_map.mpr ⟨r, List.mem_cons.mpr (Or.inr hr), hra⟩
        · right; exact h2

/-- Setting preserves distinctness of keys. -/
theorem keysNodup_aset {α : Type} {l : List (String × α)} (k : String) (v : α)
    (h : keysNodup l) : keysNodup (aset l k v) := by
  induction l with
  | nil => simp [aset, keysNodup]
  | cons p t ih =>
    rcases keysNodup_cons.mp h with ⟨hni, hnd⟩
    by_cases hp : p.1 = k
    · rw [aset_cons_pos t v hp]
      refine keysNodup_cons.mpr ⟨?_, hnd⟩
      intro q hq
      rw [← hp]
      exact hni q hq
    · rw [aset_cons_neg t v hp]
      refine keysNodup_cons.mpr ⟨?_, ih hnd⟩
      intro q hq
      rcases mem_keys_aset (List.mem_map.mpr ⟨q, hq, rfl⟩) with h2 | h2
      · rcases List.mem_map.mp h2 with ⟨r, hr, hra⟩
        rw [← hra]
        exact hni r hr
      · rw [h2]
        exact fun hc => hp hc.symm

/-- A binding of a duplicate-free map is found by lookup. -/
theorem alookup_mem {α : Type} {l : List (String × α)} {p : String × α}
    (hnd : keysNodup l) (hp : p ∈ l) : alookup l p.1 = some p.2 := by
  induction l with
  | nil => cases hp
  | cons q t ih =>
    rcases keysNodup_cons.mp hnd with ⟨hni, hnd2⟩
    rcases List.mem_cons.mp hp with hp | hp
    · rw [hp, alookup_cons, if_pos rfl]
    · rw [alookup_cons, if_neg (Ne.symm (hni p hp))]
      exact ih hnd2 hp

/-- Re-setting a key of a duplicate-free map to its own value changes
nothing. -/
theorem aset_self {α : Type} {l : List (String × α)} {k : String} {v : α}
    (hnd : keysNodup l) (h : alookup l k = some v) : aset l k v = l := by
  induction l with
  | nil => simp [alookup_nil] at h
  | cons p t ih =>
    rcases keysNodup_cons.mp hnd with ⟨_, hnd2⟩
    by_cases hp : p.1 = k
    · rw [alookup_cons, if_pos hp] at h
      rw [aset_cons_pos t v hp, ← hp, (by injection h : p.2 = v).symm]
    · rw [alookup_cons, if_neg hp] at h
      rw [aset_cons_neg t v hp, ih hnd2 h]

/-- Folding fresh pairwise-distinct bindings into a map appends them in
order. -/
theorem foldl_aset_append {α : Type} (r : List (String × α)) (acc : List (String × α))
    (hdisj : ∀ p ∈ r, ∀ q ∈ acc, q.1 ≠ p.1) (hnd : keysNodup r) :
    r.foldl (fun a p => aset a p.1 p.2) acc = acc ++ r := by
  induction r generalizing acc with
  | nil => simp
  | cons p t ih =>
    rcases keysNodup_cons.mp hnd with ⟨hni, hnd2⟩
    have hstep : aset acc p.1 p.2 = acc ++ [p] := by
      rw [aset_fresh p.2 (fun q hq => hdisj p (by simp) q hq)]
    have hdisj2 : ∀ q ∈ t, ∀ r2 ∈ acc ++ [p], r2.1 ≠ q.1 := by
      intro q hq r2 hr2
      rcases (by simpa using hr2 : r2 ∈ acc ∨ r2 = p) with hr2 | hr2
      · exact hdisj q (by simp [hq]) r2 hr2
      · rw [hr2]
        exact Ne.symm (hni q hq)
    rw [List.foldl_cons, hstep, ih (acc ++ [p]) hdisj2 hnd2, List.append_assoc]
    simp

/-- An object literal over duplicate-free entries is those entries. -/
theorem olit_nodup {α : Type} {l : List (String × α)} (hnd : keysNodup l) : olit l = l := by
  have := foldl_aset_append l [] (by simp) hnd
  simpa [olit] using this

/-- An evaluated object literal has duplicate-free keys. -/
theorem olit_keysNodup {α : Type} (l : List (String × α)) : keysNodup (olit l) := by
  suffices h : ∀ acc : List (String × α), keysNodup acc →
      keysNodup (l.foldl (fun a p => aset a p.1 p.2) acc) from h [] (by simp [keysNodup])
  induction l with
  | nil => intro acc hacc; simpa using hacc
  | cons p t ih =>
    intro acc hacc
    rw [List.foldl_cons]
    exact ih _ (keysNodup_aset p.1 p.2 hacc)

/-- Object-literal evaluation is idempotent. -/
theorem olit_idem {α : Type} (l : List (String × α)) : olit (olit l) = olit l :=
  olit_nodup (olit_keysNodup l)

/-- Folding back the existing bindings of a duplicate-free map changes
nothing. -/
theorem foldl_aset_id {α : Type} {a : List (String × α)} (b : List (String × α))
    (hnd : keysNodup a) (h : ∀ p ∈ b, alookup a p.1 = some p.2) :
    b.foldl (fun acc p => aset acc p.1 p.2) a = a := by
  induction b with
  | nil => simp
  | cons p t ih =>
    rw [List.foldl_cons, aset_self hnd (h p (by simp))]
    exact ih (fun q hq => h q (by simp [hq]))

/-- Spreading a duplicate-free object over itself reproduces it. -/
theorem objMerge_self {a : List (String × JVal)} (hnd : keysNodup a) : objMerge a a = a := by
  rw [objMerge, olit, List.foldl_append]
  rw [show a.foldl (fun acc p => aset acc p.1 p.2) [] = olit a from rfl, olit_nodup hnd]
  exact foldl_aset_id a hnd (fun p hp => alookup_mem hnd hp)

/-! ## Auxiliary theorems -/

/-- helper, truthy values are not null -/
theorem truthy_ne_null {v : JVal} (h : truthy (some v) = true) : v ≠ JVal.null := by
  intro hc
  rw [hc] at h
  simp [truthy] at h

/-- Serializing fully defined fields keeps them all. -/
theorem filterMap_defined (l : List (String × JVal)) :
    (l.map (fun p => (p.1, some p.2))).filterMap
      (fun p => p.2.map (fun v => (p.1, v))) = l := by
  induction l with
  | nil => rfl
  | cons p t ih => simp [ih]

/-- The unknown-command message is a nonempty, hence truthy, string. -/
theorem unknown_msg_ne_empty (c : String) : ("Unknown command: " ++ c) ≠ "" := by
  intro h
  have h2 := congrArg String.length h
  rw [String.length_append] at h2
  rw [show ("Unknown command: ").length = 17 from rfl] at h2
  rw [show ("" : String).length = 0 from rfl] at h2
  omega

/-- One updateContext call on a present session updates it in place. -/
theorem updateContext_present (m : CtxManager) (cid : String) (ctx : Context)
    (data : List (String × JVal)) (merge : Bool) (now : Nat)
    (hcid : cid ≠ "") (hlk : alookup m.contexts cid = some ctx) :
    (MCPContextManager.updateContext m cid data merge now).1 =
      { m with contexts := aset m.contexts cid (MCPContextManager.updateExisting m.maxHistoryLength ctx data merge now) } := by
  simp [MCPContextManager.updateContext, MCPContextManager.resolveCid, hcid, hlk]

/-- One updateExisting preserves the history bound. -/
theorem updateExisting_history_le (maxH : Nat) (ctx : Context)
    (data : List (String × JVal)) (merge : Bool) (now : Nat)
    (hle : ctx.history.length ≤ maxH) :
    (MCPContextManager.updateExisting maxH ctx data merge now).history.length ≤ maxH := by
  have hgoal : (MCPContextManager.updateExisting maxH ctx data merge now).history =
      (if (ctx.history ++ [(⟨now, olit ctx.data⟩ : CtxHistEntry)]).length > maxH then
        (ctx.history ++ [(⟨now, olit ctx.data⟩ : CtxHistEntry)]).tail
      else ctx.history ++ [(⟨now, olit ctx.data⟩ : CtxHistEntry)]) := rfl
  rw [hgoal]
  split
  · rw [List.length_tail]
    simp only [List.length_append, List.length_singleton]
    omega
  · rename_i h
    simp only [List.length_append, List.length_singleton] at h ⊢
    omega

/-- The history bound is preserved by any sequence of updateContext calls. -/
theorem applyUpdates_history_le (ops : List ((List (String × JVal)) × Bool × Nat))
    (m : CtxManager) (cid : String) (ctx : Context)
    (hcid : cid ≠ "") (hlk : alookup m.contexts cid = some ctx)
    (hle : ctx.history.length ≤ m.maxHistoryLength) :
    ∀ ctx', alookup (applyUpdates m cid ops).contexts cid = some ctx' →
      ctx'.history.length ≤ m.maxHistoryLength := by
  induction ops generalizing m ctx with
  | nil =>
    intro ctx' h
    rw [applyUpdates, List.foldl_nil] at h
    rw [hlk] at h
    cases h
    exact hle
  | cons op t ih =>
    intro ctx' h
    rw [applyUpdates, List.foldl_cons] at h
    rw [updateContext_present m cid ctx op.1 op.2.1 op.2.2 hcid hlk] at h
    set ctx2 := MCPContextManager.updateExisting m.maxHistoryLength ctx op.1 op.2.1 op.2.2 with hctx2
    set m2 : CtxManager := { m with contexts := aset m.contexts cid ctx2 } with hm2
    have hlk2 : alookup m2.contexts cid = some ctx2 := alookup_aset_self _ _ _
    have hmax2 : m2.maxHistoryLength = m.maxHistoryLength := rfl
    have hle2 : ctx2.history.length ≤ m2.maxHistoryLength := by
      rw [hmax2, hctx2]
      exact updateExisting_history_le _ _ _ _ _ hle
    have hres := ih m2 ctx2 hlk2 hle2 ctx' (by rw [applyUpdates]; exact h)
    rwa [hmax2] at hres

/-- Pushing onto a 10-bounded rolling window advances the drop index by one. -/
theorem bounded_push (L : List CtxHistEntry) (e : CtxHistEntry) (k : Nat) (hL : L.length = k) :
    (if ((L.drop (k - 10)) ++ [e]).length > 10 then ((L.drop (k - 10)) ++ [e]).tail
     else (L.drop (k - 10)) ++ [e]) = (L ++ [e]).drop ((k+1) - 10) := by
  have hle : k - 10 ≤ L.length := by omega
  rw [← List.drop_append_of_le_length hle]
  have hlen : ((L ++ [e]).drop (k - 10)).length = (k + 1) - (k - 10) := by
    rw [List.length_drop, List.length_append, List.length_singleton, hL]
  by_cases hk : 10 ≤ k
  · rw [if_pos (by rw [hlen]; omega)]
    rw [List.tail_drop]
    congr 1
    omega
  · rw [if_neg (by rw [hlen]; omega)]
    congr 1
    omega

/-- Exact session state after k replace-updates of a fresh session: the data is the last write, the history is the most recent pre-update snapshots limited to ten, oldest dropped first. -/
theorem applyUpdates_range_spec (d : Nat → List (String × JVal)) (t : Nat → Nat)
    (cid : String) (hcid : cid ≠ "") (k : Nat) :
    alookup (applyUpdates ((MCPContextManager.createContext {} cid (d 0) (t 0)).1) cid
      ((List.range k).map fun i => (d (i+1), false, t (i+1)))).contexts cid =
      some ⟨cid, t 0, t k, olit (d k),
        (((List.range k).map (fun i => (⟨t (i+1), olit (d i)⟩ : CtxHistEntry))).drop (k - 10)),
        []⟩ ∧
    (applyUpdates ((MCPContextManager.createContext {} cid (d 0) (t 0)).1) cid
      ((List.range k).map fun i => (d (i+1), false, t (i+1)))).maxHistoryLength = 10 := by
  induction k with
  | zero =>
    constructor
    · rw [applyUpdates]
      simp only [List.range_zero, List.map_nil, List.foldl_nil]
      rw [MCPContextManager.createContext]
      simp only [hcid, if_false]
      rw [alookup_nil]
      simp only [alookup_aset_self]
      rfl
    · rw [applyUpdates]
      simp only [List.range_zero, List.map_nil, List.foldl_nil]
      rw [MCPContextManager.createContext]
      simp only [hcid, if_false]
      rw [alookup_nil]
  | succ k ih =>
    obtain ⟨ihl, ihm⟩ := ih
    have hsplit : applyUpdates ((MCPContextManager.createContext {} cid (d 0) (t 0)).1) cid
        ((List.range (k+1)).map fun i => (d (i+1), false, t (i+1))) =
        (MCPContextManager.updateContext
          (applyUpdates ((MCPContextManager.createContext {} cid (d 0) (t 0)).1) cid
            ((List.range k).map fun i => (d (i+1), false, t (i+1))))
          cid (d (k+1)) false (t (k+1))).1 := by
      rw [applyUpdates, applyUpdates, List.range_succ, List.map_append, List.foldl_append]
      simp only [List.map_cons, List.map_nil, List.foldl_cons, List.foldl_nil]
    rw [hsplit]
    set M := applyUpdates ((MCPContextManager.createContext {} cid (d 0) (t 0)).1) cid
      ((List.range k).map fun i => (d (i+1), false, t (i+1))) with hM
    set ctxk : Context := ⟨cid, t 0, t k, olit (d k),
      (((List.range k).map (fun i => (⟨t (i+1), olit (d i)⟩ : CtxHistEntry))).drop (k - 10)),
      []⟩ with hctxk
    rw [updateContext_present M cid ctxk (d (k+1)) false (t (k+1)) hcid ihl]
    have hupd : MCPContextManager.updateExisting M.maxHistoryLength ctxk (d (k+1)) false
        (t (k+1)) =
        (⟨cid, t 0, t (k+1), olit (d (k+1)),
          (((List.range (k+1)).map (fun i => (⟨t (i+1), olit (d i)⟩ : CtxHistEntry))).drop
            ((k+1) - 10)), []⟩ : Context) := by
      rw [ihm]
      have hrec : MCPContextManager.updateExisting 10 ctxk (d (k+1)) false (t (k+1)) =
          (⟨cid, t 0, t (k+1), olit (d (k+1)),
            (if (((((List.range k).map (fun i => (⟨t (i+1), olit (d i)⟩ : CtxHistEntry))).drop
                (k - 10)) ++ [(⟨t (k+1), olit (olit (d k))⟩ : CtxHistEntry)]).length > 10)
             then ((((List.range k).map (fun i => (⟨t (i+1), olit (d i)⟩ :
                CtxHistEntry))).drop (k - 10)) ++ [(⟨t (k+1), olit (olit (d k))⟩ : CtxHistEntry)]).tail
             else ((((List.range k).map (fun i => (⟨t (i+1), olit (d i)⟩ :
                CtxHistEntry))).drop (k - 10)) ++ [(⟨t (k+1), olit (olit (d k))⟩ : CtxHistEntry)])),
            []⟩ : Context) := rfl
      rw [hrec, olit_idem]
      simp only [Context.mk.injEq, true_and, and_true]
      rw [List.range_succ, List.map_append]
      simp only [List.map_cons, List.map_nil]
      exact bounded_push ((List.range k).map (fun i => (⟨t (i+1), olit (d i)⟩ : CtxHistEntry)))
        (⟨t (k+1), olit (d k)⟩ : CtxHistEntry) k (by rw [List.length_map, List.length_range])
    constructor
    · rw [hupd]
      exact alookup_aset_self _ _ _
    · exact ihm

/-! ## Claims -/

/-- Claim C1, counterexample: the registered echo handler returns the object with the single field timestamp = 7, yet the dispatched success response does not contain that field - the server timestamp overwrites it. The response as sent is the id followed only by the server timestamp, so a field of the handler return value is lost, refuting the claim as stated. -/
theorem c1_counterexample :
    ((alookup toolsC1 "echo").getD ⟨fun _ => .error ""⟩).handler (.obj [("x", .num 1)]) =
      .ok [("timestamp", .num 7)] ∧
    TascadeMCPServer.handleMessage toolsC1 (.parsed dataC1) 0 =
      [("id", .str "r1"), ("timestamp", .str (isoString 0))] ∧
    ("timestamp", JVal.num 7) ∉ TascadeMCPServer.handleMessage toolsC1 (.parsed dataC1) 0 := by
  refine ⟨rfl, rfl, ?_⟩
  decide

/-- Claim C1, amended: for every registered command with handler h and truthy params P, dispatching a message whose command is registered produces a success response that echoes the request id, keeps every field of h(P) in order, and appends the server timestamp - provided h(P) contains neither an id nor a timestamp key (a handler timestamp is overwritten by the server timestamp, and a handler id would override the echoed request id). -/
theorem c1_dispatch_success (tools : List (String × ToolEntry)) (c : String) (te : ToolEntry)
    (dfields : List (String × JVal)) (ridv P : JVal) (r : List (String × JVal)) (now : Nat)
    (hreg : alookup tools c = some te)
    (hc : c ≠ "")
    (hcmd : alookup dfields "command" = some (.str c))
    (hid : alookup dfields "id" = some ridv)
    (hparams : alookup dfields "params" = some P)
    (hP : truthy (some P) = true)
    (hrun : te.handler P = .ok r)
    (hnd : keysNodup r)
    (hno_id : "id" ∉ r.map Prod.fst)
    (hno_ts : "timestamp" ∉ r.map Prod.fst) :
    TascadeMCPServer.handleMessage tools (.parsed (.obj dfields)) now =
      ("id", ridv) :: r ++ [("timestamp", .str (isoString now))] := by
  have hct : truthy (some (.str c)) = true := by simp [truthy, hc]
  have hentry : TascadeMCPServer.handleMessage tools (.parsed (.obj dfields)) now =
      TascadeMCPServer.mkResponse (("id", some ridv) ::
        r.map (fun p => (p.1, some p.2)) ++
        [("timestamp", some (.str (isoString now)))]) := by
    simp [TascadeMCPServer.handleMessage, jget, hcmd, hct, hreg, hparams, hP, hrun, hid]
  rw [hentry]
  have hkeys : (("id", some ridv) :: r.map (fun p => (p.1, some p.2)) ++
      [("timestamp", some (JVal.str (isoString now)))]).map Prod.fst =
      "id" :: r.map Prod.fst ++ ["timestamp"] := by
    simp
  have hknd : keysNodup (("id", some ridv) :: r.map (fun p => (p.1, some p.2)) ++
      [("timestamp", some (JVal.str (isoString now)))]) := by
    rw [keysNodup, hkeys]
    refine List.nodup_cons.mpr ⟨?_, ?_⟩
    · intro hmem
      rcases List.mem_append.mp hmem with hmem | hmem
      · exact hno_id hmem
      · simp at hmem
    · show (List.map Prod.fst r ++ ["timestamp"]).Nodup
      rw [List.nodup_append]
      refine ⟨hnd, by simp, ?_⟩
      intro a ha
      simp only [List.mem_singleton]
      intro hc2
      rw [hc2] at ha
      exact hno_ts ha
  rw [TascadeMCPServer.mkResponse, olit_nodup hknd]
  simp only [List.filterMap_cons, List.filterMap_append, Option.map_some]
  rw [filterMap_defined]
  simp

/-- Claim C1, witness: the amended theorem applied to an echo-style handler at concrete inputs. -/
theorem c1_witness :
    TascadeMCPServer.handleMessage toolsW (.parsed dataW) 5 =
      ("id", .str "w1") :: [("success", .bool true), ("value", .num 42)] ++
        [("timestamp", .str (isoString 5))] :=
  c1_dispatch_success toolsW "echo" ⟨fun p => .ok [("success", .bool true), ("value", (jget p "value").getD .null)]⟩
    [("id", .str "w1"), ("command", .str "echo"), ("params", .obj [("value", .num 42)])]
    (.str "w1") (.obj [("value", .num 42)]) [("success", .bool true), ("value", .num 42)] 5
    rfl (by decide) rfl rfl rfl (by decide) rfl (by decide) (by decide) (by decide)

/-- Claim C2, counterexample: a payload that does carry an id (matching no pending request) together with a command name still fires the by-name fallback and settles the pending request with that command name, refuting the claim that the fallback fires only when the payload lacks an id. -/
theorem c2_counterexample :
    MCPClient.handleMessage stC2 (.parsed respC2) "fresh" =
      ({ stC2 with pendingCommands := [] },
       [.clearTimeout "idA", .resolve "idA" respC2]) := by
  decide

/-- Claim C2, amended: the by-name fallback fires exactly when the payload id (if any) matches no outstanding pending request and the payload carries a truthy command name; it settles the first pending request in insertion order with that command name, clearing its timeout and removing it from the map; a payload matching neither an id nor a pending command name settles nothing and is surfaced as a message event; a matching id settles by id and the fallback does not run. -/
theorem c2_response_matching (st : ClientState) (fs : List (String × JVal)) (fresh : String)
    (hmsg : alookup fs "message" = none) :
    (∀ s pc, alookup fs "id" = some (.str s) → s ≠ "" →
       alookup st.pendingCommands s = some pc →
       MCPClient.handleMessage st (.parsed (.obj fs)) fresh =
         ({ st with pendingCommands := adel st.pendingCommands s },
          [.clearTimeout s, MCPClient.settleEffect s (.obj fs)])) ∧
    ((∀ s, alookup fs "id" = some (.str s) → s = "" ∨ alookup st.pendingCommands s = none) →
     ∀ c hit, alookup fs "command" = some (.str c) → c ≠ "" →
       st.pendingCommands.find? (fun p => p.2.command == c) = some hit →
       MCPClient.handleMessage st (.parsed (.obj fs)) fresh =
         ({ st with pendingCommands := adel st.pendingCommands hit.1 },
          [.clearTimeout hit.1, MCPClient.settleEffect hit.1 (.obj fs)])) ∧
    ((∀ s, alookup fs "id" = some (.str s) → s = "" ∨ alookup st.pendingCommands s = none) →
     (∀ c, alookup fs "command" = some (.str c) → c = "" ∨
        st.pendingCommands.find? (fun p => p.2.command == c) = none) →
     MCPClient.handleMessage st (.parsed (.obj fs)) fresh = (st, [.emitEv "message"])) := by
  refine ⟨?_, ?_, ?_⟩
  · intro s pc hid hs hpc
    simp [MCPClient.handleMessage, MCPClient.idBranch, jget, hmsg, hid, hs, hpc]
  · intro hnoid c hit hcmd hc hfind
    have hfb : MCPClient.nameFallback st (.obj fs) =
        ({ st with pendingCommands := adel st.pendingCommands hit.1 },
         [.clearTimeout hit.1, MCPClient.settleEffect hit.1 (.obj fs)]) := by
      simp [MCPClient.nameFallback, jget, hcmd, hc, hfind]
    simp only [MCPClient.handleMessage, jget, hmsg]
    rw [MCPClient.idBranch]
    cases hidv : alookup fs "id" with
    | none => simp [jget, hidv, hfb]
    | some v =>
      cases v with
      | str s =>
        rcases hnoid s hidv with hs | hs
        · simp [jget, hidv, hs, hfb]
        · by_cases hse : s = ""
          · simp [jget, hidv, hse, hfb]
          · simp [jget, hidv, hse, hs, hfb]
      | null => simp [jget, hidv, hfb]
      | bool b => simp [jget, hidv, hfb]
      | num n => simp [jget, hidv, hfb]
      | obj o => simp [jget, hidv, hfb]
      | arr a => simp [jget, hidv, hfb]
  · intro hnoid hnocmd
    have hfb : MCPClient.nameFallback st (.obj fs) = (st, [.emitEv "message"]) := by
      rw [MCPClient.nameFallback]
      cases hcv : alookup fs "command" with
      | none => simp [jget, hcv]
      | some v =>
        cases v with
        | str c =>
          rcases hnocmd c hcv with hc | hc
          · simp [jget, hcv, hc]
          · by_cases hce : c = ""
            · simp [jget, hcv, hce]
            · simp [jget, hcv, hce, hc]
        | null => simp [jget, hcv]
        | bool b => simp [jget, hcv]
        | num n => simp [jget, hcv]
        | obj o => simp [jget, hcv]
        | arr a => simp [jget, hcv]
    simp only [MCPClient.handleMessage, jget, hmsg]
    rw [MCPClient.idBranch]
    cases hidv : alookup fs "id" with
    | none => simp [jget, hidv, hfb]
    | some v =>
      cases v with
      | str s =>
        rcases hnoid s hidv with hs | hs
        · simp [jget, hidv, hs, hfb]
        · by_cases hse : s = ""
          · simp [jget, hidv, hse, hfb]
          · simp [jget, hidv, hse, hs, hfb]
      | null => simp [jget, hidv, hfb]
      | bool b => simp [jget, hidv, hfb]
      | num n => simp [jget, hidv, hfb]
      | obj o => simp [jget, hidv, hfb]
      | arr a => simp [jget, hidv, hfb]

/-- Claim C2, witness: the amended theorem applied at a concrete client state and payload. -/
theorem c2_witness :
    MCPClient.handleMessage stC2W
      (.parsed (.obj [("id", .str "idZ"), ("command", .str "bar")])) "w" =
      ({ stC2W with pendingCommands := adel stC2W.pendingCommands "idC" },
       [.clearTimeout "idC",
        MCPClient.settleEffect "idC" (.obj [("id", .str "idZ"), ("command", .str "bar")])]) := by
  refine (c2_response_matching stC2W [("id", .str "idZ"), ("command", .str "bar")] "w"
    (by decide)).2.1 ?_ "bar" ("idC", ⟨"bar", .obj [], 1⟩) (by decide) (by decide) (by decide)
  intro s h
  right
  have h2 : some (JVal.str "idZ") = some (JVal.str s) := by
    rw [← h]
    decide
  have h3 : s = "idZ" := by
    cases h2
    rfl
  rw [h3]
  decide

/-- Claim C3, counterexample: after the close handler runs on a connected client with one pending request, that request is still in the pending map and the emitted effects contain no rejection, refuting the claim that close rejects all pending requests. -/
theorem c3_counterexample :
    (MCPClient.handleClose stC3).1.pendingCommands = [("req1", ⟨"foo", JVal.obj [], 0⟩)] ∧
    (MCPClient.handleClose stC3).2 =
      [.emitEv "disconnected", .emitEv "reconnecting", .scheduleReconnect 1 2000] := by
  constructor <;> rfl

/-- Claim C3, amended: the close and error handlers leave the pending map untouched and reject nothing; pending requests are rejected only by their individual timeouts or by an explicit disconnect call, while close and error trigger the reconnection machinery instead. -/
theorem c3_close_error_touch_no_pending (st : ClientState) :
    (MCPClient.handleClose st).1.pendingCommands = st.pendingCommands ∧
    (MCPClient.handleError st).1.pendingCommands = st.pendingCommands ∧
    (∀ e ∈ (MCPClient.handleClose st).2, ∀ pid m, e ≠ CEffect.reject pid m) ∧
    (∀ e ∈ (MCPClient.handleError st).2, ∀ pid m, e ≠ CEffect.reject pid m) := by
  refine ⟨?_, ?_, ?_, ?_⟩
  · simp only [MCPClient.handleClose, MCPClient.attemptReconnect]
    split_ifs <;> rfl
  · simp only [MCPClient.handleError, MCPClient.attemptReconnect]
    split_ifs <;> rfl
  · intro e he pid m
    simp only [MCPClient.handleClose, MCPClient.attemptReconnect] at he
    split_ifs at he
    · simp only [List.mem_singleton] at he
      simp [he]
    · simp only [List.mem_cons, List.not_mem_nil, or_false] at he
      rcases he with he | he <;> simp [he]
    · simp only [List.mem_cons, List.not_mem_nil, or_false] at he
      rcases he with he | he | he <;> simp [he]
  · intro e he pid m
    simp only [MCPClient.handleError, MCPClient.attemptReconnect] at he
    split_ifs at he
    · simp only [List.mem_singleton] at he
      simp [he]
    · simp only [List.mem_cons, List.not_mem_nil, or_false] at he
      rcases he with he | he <;> simp [he]
    · simp only [List.mem_cons, List.not_mem_nil, or_false] at he
      rcases he with he | he | he <;> simp [he]

/-- Claim C4: after an unintentional close with maxReconnectAttempts = 3 and no server ever accepting, the client makes exactly three reconnection attempts, waiting reconnectDelay times 1, 2 and 3 before attempts 1, 2 and 3, and then emits reconnect_failed and schedules nothing further. -/
theorem c4_reconnect_linear_backoff (base : Nat) :
    (MCPClient.handleClose { maxReconnectAttempts := 3, reconnectDelay := base }).2 ++
      MCPClient.reconnectAllFail
        (MCPClient.handleClose { maxReconnectAttempts := 3, reconnectDelay := base }).1 =
      [.emitEv "disconnected",
       .emitEv "reconnecting", .scheduleReconnect 1 (base * 1),
       .emitEv "reconnecting", .scheduleReconnect 2 (base * 2),
       .emitEv "reconnecting", .scheduleReconnect 3 (base * 3),
       .emitEv "reconnect_failed"] := by
  simp [MCPClient.handleClose, MCPClient.attemptReconnect, MCPClient.reconnectAllFail]

/-- Claim C5: disconnect on a connected client rejects every pending request with a connection-closed error, clears each timeout, empties the pending map, sets the intentional flag; the subsequent close event emits only disconnected (no reconnection) and resets the flag. -/
theorem c5_disconnect_rejects_all (st : ClientState)
    (hconn : st.connected = true) (hws : st.hasWs = true) :
    (MCPClient.disconnect st).1.pendingCommands = [] ∧
    (MCPClient.disconnect st).1.intentionalClose = true ∧
    (MCPClient.disconnect st).2 =
      (st.pendingCommands.flatMap
        (fun p => [.clearTimeout p.1, .reject p.1 "Connection closed"]))
        ++ (if st.wsOpen then [CEffect.closeWs] else []) ∧
    (∀ p ∈ st.pendingCommands,
       CEffect.reject p.1 "Connection closed" ∈ (MCPClient.disconnect st).2 ∧
       CEffect.clearTimeout p.1 ∈ (MCPClient.disconnect st).2) ∧
    (MCPClient.handleClose (MCPClient.disconnect st).1).1.intentionalClose = false ∧
    (MCPClient.handleClose (MCPClient.disconnect st).1).2 = [CEffect.emitEv "disconnected"] := by
  have hd : MCPClient.disconnect st =
      ({ st with intentionalClose := true, pendingCommands := [] },
       (st.pendingCommands.flatMap
         (fun p => [.clearTimeout p.1, .reject p.1 "Connection closed"]))
         ++ (if st.wsOpen then [CEffect.closeWs] else [])) := by
    simp [MCPClient.disconnect, hconn, hws]
  refine ⟨by simp [hd], by simp [hd], by simp [hd], ?_, ?_, ?_⟩
  · intro p hp
    rw [hd]
    constructor
    · exact List.mem_append_left _
        (List.mem_flatMap.mpr ⟨p, hp, by simp⟩)
    · exact List.mem_append_left _
        (List.mem_flatMap.mpr ⟨p, hp, by simp⟩)
  · simp [hd, MCPClient.handleClose]
  · simp [hd, MCPClient.handleClose]

/-- Claim C5, witness: the theorem applied to a client with two pending requests. -/
theorem c5_witness :
    (MCPClient.disconnect stC5W).1.pendingCommands = [] ∧
    (MCPClient.disconnect stC5W).1.intentionalClose = true ∧
    (MCPClient.disconnect stC5W).2 =
      (stC5W.pendingCommands.flatMap
        (fun p => [.clearTimeout p.1, .reject p.1 "Connection closed"]))
        ++ (if stC5W.wsOpen then [CEffect.closeWs] else []) ∧
    (∀ p ∈ stC5W.pendingCommands,
       CEffect.reject p.1 "Connection closed" ∈ (MCPClient.disconnect stC5W).2 ∧
       CEffect.clearTimeout p.1 ∈ (MCPClient.disconnect stC5W).2) ∧
    (MCPClient.handleClose (MCPClient.disconnect stC5W).1).1.intentionalClose = false ∧
    (MCPClient.handleClose (MCPClient.disconnect stC5W).1).2 = [CEffect.emitEv "disconnected"] :=
  c5_disconnect_rejects_all stC5W rfl rfl

/-- Claim C6: dispatching a command absent from the registry produces an error response with the structured object code unknown_command and message Unknown command: name, echoing the request id; the client receiving that response rejects the matching pending request with exactly that message. -/
theorem c6_unknown_command (tools : List (String × ToolEntry)) (c : String)
    (dfields : List (String × JVal)) (rid : String) (now : Nat)
    (st : ClientState) (pc : PendingCmd) (fresh : String)
    (hreg : alookup tools c = none)
    (hc : c ≠ "")
    (hcmd : alookup dfields "command" = some (.str c))
    (hid : alookup dfields "id" = some (.str rid))
    (hrid : rid ≠ "")
    (hpend : alookup st.pendingCommands rid = some pc) :
    TascadeMCPServer.handleMessage tools (.parsed (.obj dfields)) now =
      [("id", .str rid),
       ("error", .obj [("code", .str "unknown_command"),
                       ("message", .str ("Unknown command: " ++ c))]),
       ("timestamp", .str (isoString now))] ∧
    MCPClient.handleMessage st
        (.parsed (.obj (TascadeMCPServer.handleMessage tools (.parsed (.obj dfields)) now)))
        fresh =
      ({ st with pendingCommands := adel st.pendingCommands rid },
       [.clearTimeout rid, .reject rid ("Unknown command: " ++ c)]) := by
  have hct : truthy (some (.str c)) = true := by simp [truthy, hc]
  have hsrv : TascadeMCPServer.handleMessage tools (.parsed (.obj dfields)) now =
      [("id", .str rid),
       ("error", .obj [("code", .str "unknown_command"),
                       ("message", .str ("Unknown command: " ++ c))]),
       ("timestamp", .str (isoString now))] := by
    simp only [TascadeMCPServer.handleMessage, jget, hcmd, hct, hreg, hid,
      Bool.not_true, Bool.false_eq_true, if_false]
    simp [TascadeMCPServer.mkResponse, olit, aset]
  refine ⟨hsrv, ?_⟩
  rw [hsrv]
  have hmsgval : truthy (alookup [("code", JVal.str "unknown_command"),
      ("message", JVal.str ("Unknown command: " ++ c))] "message") = true := by
    simp [alookup_cons, truthy, unknown_msg_ne_empty c]
  simp [MCPClient.handleMessage, MCPClient.idBranch, MCPClient.settleEffect,
    MCPClient.errMsgOf, jget, alookup_cons, alookup_nil, hrid, hpend, hmsgval, truthy,
    unknown_msg_ne_empty c, jsToString]

/-- Claim C6, witness: the theorem applied at a concrete unknown command. -/
theorem c6_witness :
    TascadeMCPServer.handleMessage []
        (.parsed (.obj [("id", .str "w6"), ("command", .str "does-not-exist")])) 9 =
      [("id", .str "w6"),
       ("error", .obj [("code", .str "unknown_command"),
                       ("message", .str ("Unknown command: " ++ "does-not-exist"))]),
       ("timestamp", .str (isoString 9))] ∧
    MCPClient.handleMessage stC6W
        (.parsed (.obj (TascadeMCPServer.handleMessage []
          (.parsed (.obj [("id", .str "w6"), ("command", .str "does-not-exist")])) 9)))
        "w" =
      ({ stC6W with pendingCommands := adel stC6W.pendingCommands "w6" },
       [.clearTimeout "w6", .reject "w6" ("Unknown command: " ++ "does-not-exist")]) :=
  c6_unknown_command [] "does-not-exist" [("id", .str "w6"), ("command", .str "does-not-exist")]
    "w6" 9 stC6W ⟨"does-not-exist", .obj [], 0⟩ "w"
    rfl (by decide) rfl rfl (by decide) rfl

/-- Claim C7: a malformed inbound payload yields an error response carrying no request id (the dispatcher function is total, so no exception escapes), and a parseable payload lacking a command field yields an error response that echoes the caller-supplied id verbatim when present. -/
theorem c7_protocol_errors :
    (∀ (tools : List (String × ToolEntry)) (e : String) (now : Nat),
       TascadeMCPServer.handleMessage tools (.malformed e) now =
         [("error", .str ("Error parsing message: " ++ e)),
          ("timestamp", .str (isoString now))]) ∧
    (∀ (tools : List (String × ToolEntry)) (dfields : List (String × JVal)) (idv : JVal)
       (now : Nat),
       alookup dfields "command" = none →
       alookup dfields "id" = some idv →
       TascadeMCPServer.handleMessage tools (.parsed (.obj dfields)) now =
         [("id", idv), ("error", .str "Missing command"),
          ("timestamp", .str (isoString now))]) := by
  constructor
  · intro tools e now
    rfl
  · intro tools dfields idv now hcmd hid
    simp [TascadeMCPServer.handleMessage, TascadeMCPServer.mkResponse, olit, aset,
      jget, hcmd, hid, truthy]

/-- Claim C7, witness: both parts applied at concrete frames. -/
theorem c7_witness :
    TascadeMCPServer.handleMessage [] (.malformed "bad json") 3 =
      [("error", .str ("Error parsing message: " ++ "bad json")),
       ("timestamp", .str (isoString 3))] ∧
    TascadeMCPServer.handleMessage [] (.parsed (.obj [("id", .str "i7")])) 3 =
      [("id", .str "i7"), ("error", .str "Missing command"),
       ("timestamp", .str (isoString 3))] :=
  ⟨c7_protocol_errors.1 [] "bad json" 3,
   c7_protocol_errors.2 [] [("id", .str "i7")] (.str "i7") 3 rfl rfl⟩

/-- Claim C8: exporting a session, importing the serialized form and exporting again reproduces the original export exactly - id, created and updated timestamps, data, step sequence and history all round-trip. -/
theorem c8_export_import_roundtrip (m : CtxManager) (cid : String) (ctx : Context) (now : Nat)
    (hcid : cid ≠ "")
    (hlk : alookup m.contexts cid = some ctx)
    (hid : ctx.id = cid)
    (hnd : keysNodup ctx.data) :
    ∀ s, MCPContextManager.exportContext m cid = some s →
      MCPContextManager.exportContext (MCPContextManager.importContext m s now).1 cid =
        MCPContextManager.exportContext m cid := by
  subst hid
  intro s hs
  have hget : MCPContextManager.getContext m ctx.id = some ctx := by
    simp [MCPContextManager.getContext, MCPContextManager.resolveCid, hcid, hlk]
  have hs2 : s = ⟨ctx.id, toISO ctx.created, toISO ctx.updated, ctx.data,
      ctx.steps.map (fun st => ⟨st.name, toISO st.timestamp, st.data, st.index⟩),
      ctx.history.map (fun h => ⟨toISO h.timestamp, h.data⟩)⟩ := by
    rw [MCPContextManager.exportContext, hget] at hs
    simpa using hs.symm
  subst hs2
  set ctx1 := MCPContextManager.updateExisting m.maxHistoryLength ctx ctx.data true now with hctx1
  have hcreate : (MCPContextManager.createContext m ctx.id ctx.data now).1 =
      { m with contexts := aset m.contexts ctx.id ctx1 } := by
    simp [MCPContextManager.createContext, hcid, hlk]
  have hctx1data : ctx1.data = ctx.data := by
    simp [hctx1, MCPContextManager.updateExisting, objMerge_self hnd]
  have hctx1id : ctx1.id = ctx.id := by
    simp [hctx1, MCPContextManager.updateExisting]
  have hsteps : (ctx.steps.map (fun st =>
        (⟨st.name, toISO st.timestamp, st.data, st.index⟩ : SStep))).map
        (fun st => (⟨st.name, ofISO st.timestamp, st.data, st.index⟩ : CtxStep)) = ctx.steps := by
    rw [List.map_map]
    have hcomp : ((fun (st : SStep) =>
        (⟨st.name, ofISO st.timestamp, st.data, st.index⟩ : CtxStep)) ∘
        (fun (st : CtxStep) => (⟨st.name, toISO st.timestamp, st.data, st.index⟩ : SStep))) =
        id := by
      funext st
      rfl
    rw [hcomp, List.map_id]
  have hhist : (ctx.history.map (fun h =>
        (⟨toISO h.timestamp, h.data⟩ : SHistEntry))).map
        (fun h => (⟨ofISO h.timestamp, h.data⟩ : CtxHistEntry)) = ctx.history := by
    rw [List.map_map]
    have hcomp : ((fun (h : SHistEntry) => (⟨ofISO h.timestamp, h.data⟩ : CtxHistEntry)) ∘
        (fun (h : CtxHistEntry) => (⟨toISO h.timestamp, h.data⟩ : SHistEntry))) = id := by
      funext h
      rfl
    rw [hcomp, List.map_id]
  set ctx2 : Context := { ctx1 with created := ctx.created, updated := ctx.updated, steps := ctx.steps, history := ctx.history } with hctx2
  have hctx2eq : ctx2 = ctx := by
    have hexpand : ctx2 = ⟨ctx1.id, ctx.created, ctx.updated, ctx1.data, ctx.history, ctx.steps⟩ := rfl
    rw [hexpand, hctx1id, hctx1data]
  have himp : (MCPContextManager.importContext m
      ⟨ctx.id, toISO ctx.created, toISO ctx.updated, ctx.data,
        ctx.steps.map (fun st => ⟨st.name, toISO st.timestamp, st.data, st.index⟩),
        ctx.history.map (fun h => ⟨toISO h.timestamp, h.data⟩)⟩ now).1 =
      { m with contexts := aset (aset m.contexts ctx.id ctx1) ctx.id ctx2 } := by
    rw [MCPContextManager.importContext]
    simp only [hcid, if_false, hcreate, alookup_aset_self]
    rw [hsteps, hhist]
    rfl
  rw [himp]
  have hget2 : MCPContextManager.getContext
      { m with contexts := aset (aset m.contexts ctx.id ctx1) ctx.id ctx2 } ctx.id =
      some ctx := by
    simp [MCPContextManager.getContext, MCPContextManager.resolveCid, hcid,
      alookup_aset_self, hctx2eq]
  rw [MCPContextManager.exportContext, hget2, MCPContextManager.exportContext, hget]

/-- Claim C8, witness: the round trip on a session with one step and one history entry. -/
theorem c8_witness :
    MCPContextManager.exportContext (MCPContextManager.importContext mgrW
      ⟨"c1", toISO 5, toISO 8, [("k", .num 1)],
       [⟨"s1", toISO 7, .null, 0⟩], [⟨toISO 6, [("k", .num 0)]⟩]⟩ 99).1 "c1" =
      MCPContextManager.exportContext mgrW "c1" :=
  c8_export_import_roundtrip mgrW "c1"
    ⟨"c1", 5, 8, [("k", .num 1)], [⟨6, [("k", .num 0)]⟩], [⟨"s1", 7, .null, 0⟩]⟩ 99
    (by decide) (by decide) (by decide) (by decide)
    ⟨"c1", toISO 5, toISO 8, [("k", .num 1)],
     [⟨"s1", toISO 7, .null, 0⟩], [⟨toISO 6, [("k", .num 0)]⟩]⟩
    (by decide)

/-- Claim C9: the session history length never exceeds the configured maximum (10) after any finite sequence of updateContext calls, and after sixteen writes (one create and fifteen updates) the history holds exactly the ten most recent pre-update snapshots in order, oldest evicted first. -/
theorem c9_history_bound_eviction :
    (∀ (ops : List ((List (String × JVal)) × Bool × Nat)) (m : CtxManager) (cid : String)
       (ctx : Context), cid ≠ "" → alookup m.contexts cid = some ctx →
       ctx.history.length ≤ m.maxHistoryLength →
       ∀ ctx', alookup (applyUpdates m cid ops).contexts cid = some ctx' →
         ctx'.history.length ≤ m.maxHistoryLength) ∧
    (∀ (d : Nat → List (String × JVal)) (t : Nat → Nat) (cid : String), cid ≠ "" →
       alookup (applyUpdates ((MCPContextManager.createContext {} cid (d 0) (t 0)).1) cid
         ((List.range 15).map fun i => (d (i+1), false, t (i+1)))).contexts cid =
         some ⟨cid, t 0, t 15, olit (d 15),
           (List.range 10).map (fun j => (⟨t (j + 6), olit (d (j + 5))⟩ : CtxHistEntry)),
           []⟩) := by
  constructor
  · exact fun ops m cid ctx hcid hlk hle => applyUpdates_history_le ops m cid ctx hcid hlk hle
  · intro d t cid hcid
    have h := (applyUpdates_range_spec d t cid hcid 15).1
    have hdrop : (((List.range 15).map
        (fun i => (⟨t (i+1), olit (d i)⟩ : CtxHistEntry))).drop (15 - 10)) =
        (List.range 10).map (fun j => (⟨t (j + 6), olit (d (j + 5))⟩ : CtxHistEntry)) := by
      rw [show (15 : Nat) - 10 = 5 from rfl]
      rw [← List.map_drop]
      rw [show (List.range 15).drop 5 = [5, 6, 7, 8, 9, 10, 11, 12, 13, 14] from by decide]
      rw [show List.range 10 = [0, 1, 2, 3, 4, 5, 6, 7, 8, 9] from by decide]
      simp only [List.map_cons, List.map_nil]
    rw [h, hdrop]

/-- Claim C9, witness: the bound applied to a concrete two-update run, and the eviction shape applied to concrete data and clock functions. -/
theorem c9_witness :
    (alookup (applyUpdates mgrW "c1" opsW).contexts "c1" =
      some ⟨"c1", 5, 22, [("a", JVal.num 2)],
        [⟨6, [("k", JVal.num 0)]⟩, ⟨21, [("k", JVal.num 1)]⟩,
         ⟨22, [("k", JVal.num 1), ("a", JVal.num 1)]⟩],
        [⟨"s1", 7, JVal.null, 0⟩]⟩ ∧
     (⟨"c1", 5, 22, [("a", JVal.num 2)],
        [⟨6, [("k", JVal.num 0)]⟩, ⟨21, [("k", JVal.num 1)]⟩,
         ⟨22, [("k", JVal.num 1), ("a", JVal.num 1)]⟩],
        [⟨"s1", 7, JVal.null, 0⟩]⟩ : Context).history.length ≤ mgrW.maxHistoryLength) ∧
    alookup (applyUpdates ((MCPContextManager.createContext {} "s"
        ((fun i : Nat => [("v", JVal.num (i : Int))]) 0) ((fun i : Nat => 100 + i) 0)).1) "s"
        ((List.range 15).map fun i =>
          ((fun i : Nat => [("v", JVal.num (i : Int))]) (i+1), false, (fun i : Nat => 100 + i) (i+1)))).contexts
        "s" =
      some ⟨"s", (fun i : Nat => 100 + i) 0, (fun i : Nat => 100 + i) 15,
        olit ((fun i : Nat => [("v", JVal.num (i : Int))]) 15),
        (List.range 10).map (fun j => (⟨(fun i : Nat => 100 + i) (j + 6),
          olit ((fun i : Nat => [("v", JVal.num (i : Int))]) (j + 5))⟩ : CtxHistEntry)),
        []⟩ := by
  refine ⟨⟨by decide, ?_⟩, ?_⟩
  · exact c9_history_bound_eviction.1 opsW mgrW "c1"
      ⟨"c1", 5, 8, [("k", .num 1)], [⟨6, [("k", .num 0)]⟩], [⟨"s1", 7, .null, 0⟩]⟩
      (by decide) rfl (by decide) _ (by decide)
  · exact c9_history_bound_eviction.2 (fun i : Nat => [("v", JVal.num (i : Int))]) (fun i : Nat => 100 + i) "s"
      (by decide)

/-- Claim C10: once getResource has cached a non-null content for a URI, every later getResource call on the same client resolves with the cached content and sends no command, regardless of how the server would now reply. -/
theorem c10_resource_cached (st : ClientState) (uri : String) (respObj r : JVal)
    (hnc : ∀ v, alookup st.availableResources uri = some v → v = JVal.null)
    (hsucc : truthy (jget respObj "success") = true)
    (hres : jget respObj "resource" = some r)
    (hr : truthy (some r) = true) :
    (MCPClient.getResource st uri (.ok respObj)).2.1 = .ok r ∧
    (MCPClient.getResource st uri (.ok respObj)).2.2 =
      [("get-resource", JVal.obj [("uri", .str uri)])] ∧
    (∀ reply₂, MCPClient.getResource (MCPClient.getResource st uri (.ok respObj)).1 uri reply₂ =
      ((MCPClient.getResource st uri (.ok respObj)).1, .ok r, [])) := by
  have hfetch : MCPClient.getResourceFetch st uri (.ok respObj) =
      ({ st with availableResources := aset st.availableResources uri r }, .ok r,
       [("get-resource", JVal.obj [("uri", .str uri)])]) := by
    simp [MCPClient.getResourceFetch, hsucc, hres, hr]
  have hcall : MCPClient.getResource st uri (.ok respObj) =
      ({ st with availableResources := aset st.availableResources uri r }, .ok r,
       [("get-resource", JVal.obj [("uri", .str uri)])]) := by
    rw [MCPClient.getResource]
    cases hl : alookup st.availableResources uri with
    | none => simp [hfetch]
    | some v =>
      rw [hnc v hl]
      simp [hfetch]
  refine ⟨by simp [hcall], by simp [hcall], ?_⟩
  intro reply₂
  rw [hcall, MCPClient.getResource]
  simp only [alookup_aset_self]
  simp [truthy_ne_null hr]

/-- Claim C10, witness: a fetch followed by a cache hit at concrete values. -/
theorem c10_witness :
    (MCPClient.getResource stC10W "file.txt"
      (.ok (.obj [("success", .bool true), ("resource", .str "content")]))).2.1 =
        .ok (.str "content") ∧
    (MCPClient.getResource stC10W "file.txt"
      (.ok (.obj [("success", .bool true), ("resource", .str "content")]))).2.2 =
        [("get-resource", JVal.obj [("uri", .str "file.txt")])] ∧
    (∀ reply₂,
      MCPClient.getResource
        (MCPClient.getResource stC10W "file.txt"
          (.ok (.obj [("success", .bool true), ("resource", .str "content")]))).1
        "file.txt" reply₂ =
      ((MCPClient.getResource stC10W "file.txt"
          (.ok (.obj [("success", .bool true), ("resource", .str "content")]))).1,
       .ok (.str "content"), [])) :=
  c10_resource_cached stC10W "file.txt" (.obj [("success", .bool true), ("resource", .str "content")])
    (.str "content") (fun v h => Option.noConfusion h) rfl rfl (by decide)
